import Mathlib

/-!
Verification of the botnotes repository's core logic: the schema-migration
engine (`src/botnotes/migrations.py`), and the storage/index components it
is specified against (path sanitization, the backlinks index and folder
listing, whose implementation modules are referenced by the tests but whose
bodies are modelled from the specification).

Machine integers do not occur: versions and line numbers are small Python
ints, modelled as `Nat`. Python exceptions are modelled with `Except`.
-/

namespace Botnotes

/-- Python `s.startswith(pre)` on strings, as a character-list prefix test. -/
def startsWith (s pre : String) : Bool :=
  pre.data.isPrefixOf s.data

/-! ## Migration engine (`src/botnotes/migrations.py`) -/

/-- Modelled from the spec: `REQUIRED_DATA_VERSION` lives in
`botnotes/config.py`, which is not among the repository's files; the spec
fixes the required target data version at 2 (the only defined migration step
is version 1 to 2). -/
def REQUIRED_DATA_VERSION : Nat := 2

/-- Modelled from the spec: `Config` (from the missing `botnotes/config.py`)
as the migration engine uses it — a persisted integer data version.
`Config.save` is modelled by the `saved` flag of `RunOutcome` below. -/
structure Config where
  data_version : Nat
deriving Repr, DecidableEq

/-- `MigrationResult` dataclass of `migrations.py`. -/
structure MigrationResult where
  from_version : Nat
  to_version : Nat
  notes_moved : List (String × String)
  errors : List String
deriving Repr, DecidableEq

/-- The `success` property: `len(self.errors) == 0`. -/
def MigrationResult.success (r : MigrationResult) : Bool :=
  r.errors.isEmpty

/-- `find_overlapping_notes(service)`: the service is represented by the
list `notes` that its `list_notes()` returns; `set(...)` becomes `dedup`
(iteration order is irrelevant because the result is sorted, and the sort
key `old_path` is unique).  Python's `sorted` on pairs with distinct first
components is sorting by the first component. -/
def find_overlapping_notes (notes : List String) : List (String × String) :=
  let all_paths := notes.dedup
  let overlaps :=
    (all_paths.filter (fun path =>
        (all_paths.any (fun p => startsWith p (path ++ "/"))) &&
        !(decide ((path ++ "/index") ∈ all_paths)))).map
      (fun path => (path, path ++ "/index"))
  List.insertionSort (fun a b => a.1 ≤ b.1) overlaps

/-- `migrate_v1_to_v2(service, overlaps)`: `service.update_note` is
represented by the fallible `upd`; the loop appends to `moved` on success and
to `errors` the message `f"Error moving {old_path}: {e}"` on exception. -/
def migrate_v1_to_v2 (upd : String → String → Except String Unit) :
    List (String × String) → List (String × String) × List String
  | [] => ([], [])
  | ov :: rest =>
    match upd ov.1 ov.2 with
    | .ok _ =>
      let r := migrate_v1_to_v2 upd rest
      (ov :: r.1, r.2)
    | .error e =>
      let r := migrate_v1_to_v2 upd rest
      (r.1, ("Error moving " ++ ov.1 ++ ": " ++ e) :: r.2)

/-- What one call of `run_migrations` leaves behind: the returned
`MigrationResult`, the final `config`, and whether `config.save()` ran. -/
structure RunOutcome where
  result : MigrationResult
  config : Config
  saved : Bool
deriving Repr, DecidableEq

/-- `run_migrations(config, service)` of `migrations.py`.  The nested
`if errors: return result` early return is the `early` flag; on the
fall-through path the config version is set to `REQUIRED_DATA_VERSION`
and saved. -/
def run_migrations (config : Config) (notes : List String)
    (upd : String → String → Except String Unit) : RunOutcome :=
  let from_version := config.data_version
  if from_version ≥ REQUIRED_DATA_VERSION then
    ⟨⟨from_version, from_version, [], []⟩, config, false⟩
  else
    let result0 : MigrationResult := ⟨from_version, REQUIRED_DATA_VERSION, [], []⟩
    let step :=
      if from_version < 2 then
        let overlaps := find_overlapping_notes notes
        if !overlaps.isEmpty then
          let mv := migrate_v1_to_v2 upd overlaps
          let result : MigrationResult :=
            { result0 with
                notes_moved := result0.notes_moved ++ mv.1
                errors := result0.errors ++ mv.2 }
          (result, !mv.2.isEmpty)
        else (result0, false)
      else (result0, false)
    if step.2 then
      ⟨step.1, config, false⟩
    else
      ⟨step.1, { config with data_version := REQUIRED_DATA_VERSION }, true⟩

/-! ## Backlinks index (`notes/links/index.py`)

Modelled from the spec: `notes/links/index.py` is re-exported by
`notes/links/__init__.py` and exercised by `tests/test_backlinks.py`, but the
module body is not among the repository's files.  Per §4.5 of the spec the
index is a set of directed edges target ← source with deduplicated,
ascending line numbers; the persisted snapshot loads to an empty index when
absent. -/

/-- `WikiLink` of `notes/links/parser.py` as the tests construct it. -/
structure WikiLink where
  target_path : String
  display_text : Option String
  line_number : Nat
deriving Repr, DecidableEq

/-- `BacklinkInfo` of `notes/links/index.py`: one entry per distinct source. -/
structure BacklinkInfo where
  source_path : String
  line_numbers : List Nat
deriving Repr, DecidableEq

/-- The derived `link_count` property: number of line numbers. -/
def BacklinkInfo.link_count (b : BacklinkInfo) : Nat :=
  b.line_numbers.length

/-- One stored edge of the backlinks graph. -/
structure Edge where
  source : String
  target : String
  lines : List Nat
deriving Repr, DecidableEq

/-- The in-memory state of `BacklinksIndex`: its edge list. -/
abbrev BacklinksIndex := List Edge

/-- Modelled from the spec: a freshly constructed index whose snapshot file
does not exist loads as the empty index (§4.5: "same empty-is-valid rule as
the search index"). -/
def emptyIndex : BacklinksIndex := []

/-- Insert a line number into a sorted duplicate-free list, keeping it
sorted and duplicate-free. -/
def insertLine (n : Nat) : List Nat → List Nat
  | [] => [n]
  | m :: ms =>
    if n < m then n :: m :: ms
    else if n = m then m :: ms
    else m :: insertLine n ms

/-- The deduplicated ascending union of the line numbers of the links of
`links` whose target is `t` (§4.5: "one merged entry whose line-number set
is the union, deduplicated and sorted ascending"). -/
def mergeLines (links : List WikiLink) (t : String) : List Nat :=
  ((links.filter (fun l => l.target_path = t)).map (fun l => l.line_number)).foldl
    (fun acc n => insertLine n acc) []

/-- The edges one `update_note_links(source, links)` call contributes: one
edge per distinct target among `links`. -/
def newEdges (s : String) (links : List WikiLink) : List Edge :=
  ((links.map (fun l => l.target_path)).dedup).map
    (fun t => ⟨s, t, mergeLines links t⟩)

/-- `update_note_links(source_path, links)`: replaces all outgoing edges of
`s` with exactly the edges implied by `links`. -/
def update_note_links (idx : BacklinksIndex) (s : String)
    (links : List WikiLink) : BacklinksIndex :=
  idx.filter (fun e => e.source ≠ s) ++ newEdges s links

/-- `get_backlinks(target_path)`: one `BacklinkInfo` per stored edge into
`t`. -/
def get_backlinks (idx : BacklinksIndex) (t : String) : List BacklinkInfo :=
  (idx.filter (fun e => e.target = t)).map (fun e => ⟨e.source, e.lines⟩)

/-- `remove_note(source_path)`: removes all outgoing edges of `s`; edges
where `s` is only a target are untouched. -/
def remove_note (idx : BacklinksIndex) (s : String) : BacklinksIndex :=
  idx.filter (fun e => e.source ≠ s)

/-- `rename_target(old_path, new_path)`: relabels every edge whose target is
`old` to target `new`, preserving source and line numbers. -/
def rename_target (idx : BacklinksIndex) (old new : String) : BacklinksIndex :=
  idx.map (fun e => if e.target = old then ⟨e.source, new, e.lines⟩ else e)

/-! ## Path sanitization (`notes/storage/filesystem.py`)

Modelled from the spec: `FilesystemStorage._sanitize_path` lives in
`notes/storage/filesystem.py`, which is not among the repository's files;
§4.1 of the spec defines it: trim whitespace, `PathInvalid` when the
trimmed string is empty or only separators, strip a single leading
separator, resolve `.`/`..` segments against the repository root and
`PathInvalid` when the resolution escapes the root. -/

/-- The `PathInvalid` error of the spec's taxonomy (§7). -/
def pathInvalid : String := "PathInvalid"

/-- Drop leading whitespace characters. -/
def dropLeadingWs : List Char → List Char
  | [] => []
  | c :: cs => if c.isWhitespace then dropLeadingWs cs else c :: cs

/-- Python `str.strip()`: trim whitespace at both ends. -/
def trimChars (l : List Char) : List Char :=
  ((dropLeadingWs ((dropLeadingWs l).reverse)).reverse)

/-- Strip a single leading `/` (an absolute path is reinterpreted as
root-relative). -/
def stripLeadingSlash (t : List Char) : List Char :=
  if t.head? = some '/' then t.tail else t

/-- Resolve `.`/`..` segments against a stack of kept segments; `none` when
a `..` would escape the repository root.  Empty and `.` segments vanish. -/
def resolveStack (stack : List (List Char)) : List (List Char) → Option (List (List Char))
  | [] => some stack.reverse
  | s :: rest =>
    if s = [] ∨ s = ['.'] then resolveStack stack rest
    else if s = ['.', '.'] then
      match stack with
      | [] => none
      | _ :: st => resolveStack st rest
    else resolveStack (s :: stack) rest

/-- Re-join resolved segments with `/`. -/
def joinSlash : List (List Char) → List Char
  | [] => []
  | [s] => s
  | s :: rest => s ++ '/' :: joinSlash rest

/-- `sanitize(path)` per §4.1 of the spec. -/
def sanitize (path : String) : Except String String :=
  if trimChars path.data = [] then .error pathInvalid
  else if (trimChars path.data).all (fun c => c = '/') then .error pathInvalid
  else
    match resolveStack [] ((stripLeadingSlash (trimChars path.data)).splitOn '/') with
    | none => .error pathInvalid
    | some segs =>
      if segs = [] then .error pathInvalid
      else .ok ⟨joinSlash segs⟩

/-! ## Folder listing (`notes/services/note_service.py`)

Modelled from the spec: `NoteService.list_notes_in_folder` lives in
`notes/services/note_service.py`, which is not among the repository's
files; §4.6 of the spec defines it: top-level listing (paths containing no
separator) when the prefix is empty, otherwise the paths beginning with
`prefix + "/"`. -/

/-- `list_notes_in_folder(prefix)` over the stored paths. -/
def list_notes_in_folder (paths : List String) (pre : String) : List String :=
  if pre = "" then paths.filter (fun p => !(decide ('/' ∈ p.data)))
  else paths.filter (fun p => startsWith p (pre ++ "/"))

end Botnotes

deriving instance DecidableEq for Except

namespace Botnotes

instance : IsTotal (String × String) (fun a b => a.1 ≤ b.1) :=
  ⟨fun a b => le_total a.1 b.1⟩

instance : IsTrans (String × String) (fun a b => a.1 ≤ b.1) :=
  ⟨fun _ _ _ hab hbc => le_trans hab hbc⟩

/-! ## Lemmas about the backlinks index -/

theorem mem_insertLine (m n : Nat) (l : List Nat) :
    m ∈ insertLine n l ↔ m = n ∨ m ∈ l := by
  induction l with
  | nil => simp [insertLine]
  | cons a as ih =>
    by_cases h1 : n < a
    · rw [show insertLine n (a :: as) = n :: a :: as from by simp [insertLine, h1]]
      simp only [List.mem_cons]
    · by_cases h2 : n = a
      · subst h2
        rw [show insertLine n (n :: as) = n :: as from by simp [insertLine, h1]]
        simp only [List.mem_cons]
        tauto
      · rw [show insertLine n (a :: as) = a :: insertLine n as from by
          simp [insertLine, h1, h2]]
        simp only [List.mem_cons, ih]
        tauto

theorem pairwise_insertLine (n : Nat) (l : List Nat)
    (h : l.Pairwise (fun a b => a < b)) :
    (insertLine n l).Pairwise (fun a b => a < b) := by
  induction l with
  | nil => simp [insertLine]
  | cons a as ih =>
    rcases List.pairwise_cons.mp h with ⟨ha, has⟩
    by_cases h1 : n < a
    · rw [show insertLine n (a :: as) = n :: a :: as from by simp [insertLine, h1]]
      refine List.pairwise_cons.mpr ⟨?_, h⟩
      intro b hb
      rcases List.mem_cons.mp hb with rfl | hb
      · exact h1
      · exact lt_trans h1 (ha b hb)
    · by_cases h2 : n = a
      · rw [show insertLine n (a :: as) = a :: as from by simp [insertLine, h1, h2]]
        exact h
      · have hna : a < n := lt_of_le_of_ne (Nat.le_of_not_lt h1) (Ne.symm h2)
        rw [show insertLine n (a :: as) = a :: insertLine n as from by
          simp [insertLine, h1, h2]]
        refine List.pairwise_cons.mpr ⟨?_, ih has⟩
        intro b hb
        rcases (mem_insertLine b n as).mp hb with rfl | hb
        · exact hna
        · exact ha b hb

theorem mem_foldl_insertLine (ns : List Nat) :
    ∀ (acc : List Nat) (m : Nat),
      m ∈ ns.foldl (fun acc n => insertLine n acc) acc ↔ m ∈ acc ∨ m ∈ ns := by
  induction ns with
  | nil => simp
  | cons a as ih =>
    intro acc m
    simp only [List.foldl_cons, ih, mem_insertLine, List.mem_cons]
    tauto

theorem pairwise_foldl_insertLine (ns : List Nat) :
    ∀ (acc : List Nat), acc.Pairwise (fun a b => a < b) →
      (ns.foldl (fun acc n => insertLine n acc) acc).Pairwise (fun a b => a < b) := by
  induction ns with
  | nil => intro acc h; simpa using h
  | cons a as ih =>
    intro acc h
    exact ih _ (pairwise_insertLine a acc h)

theorem mem_mergeLines (links : List WikiLink) (t : String) (n : Nat) :
    n ∈ mergeLines links t ↔ ∃ l ∈ links, l.target_path = t ∧ l.line_number = n := by
  unfold mergeLines
  rw [mem_foldl_insertLine]
  simp only [List.not_mem_nil, false_or, List.mem_map, List.mem_filter]
  constructor
  · rintro ⟨l, ⟨hl, ht⟩, rfl⟩
    exact ⟨l, hl, by simpa using ht, rfl⟩
  · rintro ⟨l, hl, ht, rfl⟩
    exact ⟨l, ⟨hl, by simpa using ht⟩, rfl⟩

theorem pairwise_mergeLines (links : List WikiLink) (t : String) :
    (mergeLines links t).Pairwise (fun a b => a < b) :=
  pairwise_foldl_insertLine _ [] (List.Pairwise.nil)

theorem source_of_mem_newEdges (s : String) (links : List WikiLink) (e : Edge)
    (h : e ∈ newEdges s links) : e.source = s := by
  rcases List.mem_map.mp h with ⟨t, _, rfl⟩
  rfl

theorem filter_source_newEdges (s : String) (links : List WikiLink) :
    (newEdges s links).filter (fun e => e.source ≠ s) = [] := by
  rw [List.filter_eq_nil_iff]
  intro e he
  simp [source_of_mem_newEdges s links e he]

theorem update_note_links_update_note_links (idx : BacklinksIndex) (s : String)
    (l1 l2 : List WikiLink) :
    update_note_links (update_note_links idx s l1) s l2 = update_note_links idx s l2 := by
  unfold update_note_links
  rw [List.filter_append, filter_source_newEdges, List.append_nil,
    List.filter_filter]
  simp

theorem filter_target_map_edges (s t : String) (links : List WikiLink) :
    ∀ dl : List String, dl.Nodup →
      (dl.map (fun u => (⟨s, u, mergeLines links u⟩ : Edge))).filter
          (fun e => e.target = t) =
        if t ∈ dl then [(⟨s, t, mergeLines links t⟩ : Edge)] else [] := by
  intro dl
  induction dl with
  | nil => intro _; simp
  | cons a as ih =>
    intro hnd
    rcases List.nodup_cons.mp hnd with ⟨hna, hnas⟩
    by_cases hat : a = t
    · subst hat
      have hrest : (as.map (fun u => (⟨s, u, mergeLines links u⟩ : Edge))).filter
          (fun e => e.target = a) = [] := by
        rw [ih hnas, if_neg hna]
      simp [List.filter_cons, hrest]
    · have hta : ¬t = a := fun h => hat h.symm
      simp [List.filter_cons, hat, hta, ih hnas]

theorem filter_target_newEdges (s t : String) (links : List WikiLink) :
    (newEdges s links).filter (fun e => e.target = t) =
      if t ∈ (links.map (fun l => l.target_path)).dedup
      then [⟨s, t, mergeLines links t⟩] else [] := by
  unfold newEdges
  exact filter_target_map_edges s t links _ (List.nodup_dedup _)

theorem get_backlinks_append (a b : BacklinksIndex) (t : String) :
    get_backlinks (a ++ b) t = get_backlinks a t ++ get_backlinks b t := by
  simp [get_backlinks, List.filter_append]

theorem mem_get_backlinks (idx : BacklinksIndex) (t : String) (b : BacklinkInfo) :
    b ∈ get_backlinks idx t ↔
      ∃ e ∈ idx, e.target = t ∧ b = ⟨e.source, e.lines⟩ := by
  unfold get_backlinks
  simp only [List.mem_map, List.mem_filter, decide_eq_true_eq]
  constructor
  · rintro ⟨e, ⟨he, ht⟩, rfl⟩
    exact ⟨e, he, ht, rfl⟩
  · rintro ⟨e, he, ht, rfl⟩
    exact ⟨e, ⟨he, ht⟩, rfl⟩

theorem get_backlinks_filter_ne_source (idx : BacklinksIndex) (s t : String) :
    ∀ b ∈ get_backlinks (idx.filter (fun e => e.source ≠ s)) t, b.source_path ≠ s := by
  intro b hb
  rcases (mem_get_backlinks _ _ _).mp hb with ⟨e, he, _, rfl⟩
  rcases List.mem_filter.mp he with ⟨_, hs⟩
  simpa using hs

theorem get_backlinks_newEdges_of_not_target (s t : String) (links : List WikiLink)
    (h : ∀ l ∈ links, l.target_path ≠ t) :
    get_backlinks (newEdges s links) t = [] := by
  unfold get_backlinks
  rw [filter_target_newEdges, if_neg, List.map_nil]
  intro hmem
  rcases List.mem_map.mp (List.mem_dedup.mp hmem) with ⟨l, hl, ht⟩
  exact h l hl ht

theorem get_backlinks_newEdges_of_target (s t : String) (links : List WikiLink)
    (h : ∃ l ∈ links, l.target_path = t) :
    get_backlinks (newEdges s links) t = [⟨s, mergeLines links t⟩] := by
  unfold get_backlinks
  rw [filter_target_newEdges, if_pos, List.map_cons, List.map_nil]
  rcases h with ⟨l, hl, ht⟩
  exact List.mem_dedup.mpr (List.mem_map.mpr ⟨l, hl, ht⟩)

theorem rename_target_cons (e : Edge) (es : BacklinksIndex) (old new : String) :
    rename_target (e :: es) old new =
      (if e.target = old then (⟨e.source, new, e.lines⟩ : Edge) else e) ::
        rename_target es old new := rfl

theorem get_backlinks_cons_pos (e : Edge) (es : BacklinksIndex) (t : String)
    (h : e.target = t) :
    get_backlinks (e :: es) t = ⟨e.source, e.lines⟩ :: get_backlinks es t := by
  unfold get_backlinks
  rw [List.filter_cons_of_pos (by simpa using h), List.map_cons]

theorem get_backlinks_cons_neg (e : Edge) (es : BacklinksIndex) (t : String)
    (h : ¬e.target = t) :
    get_backlinks (e :: es) t = get_backlinks es t := by
  unfold get_backlinks
  rw [List.filter_cons_of_neg (by simpa using h)]

theorem rename_target_get_old (idx : BacklinksIndex) (old new : String)
    (h : old ≠ new) : get_backlinks (rename_target idx old new) old = [] := by
  have h2 : ¬(new = old) := fun hh => h hh.symm
  induction idx with
  | nil => rfl
  | cons e es ih =>
    rw [rename_target_cons]
    by_cases he : e.target = old
    · rw [if_pos he, get_backlinks_cons_neg _ _ _ h2]
      exact ih
    · rw [if_neg he, get_backlinks_cons_neg _ _ _ he]
      exact ih

theorem rename_target_get_new (idx : BacklinksIndex) (old new : String) :
    get_backlinks (rename_target idx old new) new =
      (idx.filter (fun e => e.target = old ∨ e.target = new)).map
        (fun e => ⟨e.source, e.lines⟩) := by
  induction idx with
  | nil => rfl
  | cons e es ih =>
    rw [rename_target_cons]
    by_cases he : e.target = old
    · rw [if_pos he, get_backlinks_cons_pos _ _ _ rfl,
        List.filter_cons_of_pos (by simp [he]), List.map_cons]
      exact congrArg _ ih
    · rw [if_neg he]
      by_cases hn : e.target = new
      · rw [get_backlinks_cons_pos _ _ _ hn,
          List.filter_cons_of_pos (by simp [hn]), List.map_cons]
        exact congrArg _ ih
      · rw [get_backlinks_cons_neg _ _ _ hn,
          List.filter_cons_of_neg (by simp [he, hn])]
        exact ih

theorem rename_target_noop (idx : BacklinksIndex) (old new : String)
    (h : ∀ e ∈ idx, e.target ≠ old) : rename_target idx old new = idx := by
  induction idx with
  | nil => rfl
  | cons e es ih =>
    have he : e.target ≠ old := h e (List.mem_cons_self e es)
    have hes : ∀ x ∈ es, x.target ≠ old := fun x hx => h x (List.mem_cons_of_mem e hx)
    rw [rename_target_cons, if_neg he, ih hes]

theorem rename_target_frame (idx : BacklinksIndex) (old new t : String)
    (h1 : t ≠ old) (h2 : t ≠ new) :
    get_backlinks (rename_target idx old new) t = get_backlinks idx t := by
  have h2s : ¬(new = t) := fun hh => h2 hh.symm
  induction idx with
  | nil => rfl
  | cons e es ih =>
    rw [rename_target_cons]
    by_cases he : e.target = old
    · rw [if_pos he, get_backlinks_cons_neg _ _ _ h2s,
        get_backlinks_cons_neg e es t (by rw [he]; exact fun hh => h1 hh.symm)]
      exact ih
    · rw [if_neg he]
      by_cases ht : e.target = t
      · rw [get_backlinks_cons_pos _ _ _ ht, get_backlinks_cons_pos e es t ht]
        exact congrArg _ ih
      · rw [get_backlinks_cons_neg _ _ _ ht, get_backlinks_cons_neg e es t ht]
        exact ih

/-! ## The claims about the backlinks index -/

/-- Claim C4: `update_note_links` replaces all outgoing edges of the source:
a second update for the same source supersedes the first entirely, any
target not named by the latest links has no backlink from that source, and
an empty links sequence leaves exactly the other sources' edges. -/
theorem C4_update_note_links_replaces :
    ∀ (idx : BacklinksIndex) (s : String) (l1 l2 : List WikiLink),
      update_note_links (update_note_links idx s l1) s l2 =
          update_note_links idx s l2 ∧
      (∀ t : String, (∀ l ∈ l2, l.target_path ≠ t) →
        ∀ b ∈ get_backlinks (update_note_links (update_note_links idx s l1) s l2) t,
          b.source_path ≠ s) ∧
      update_note_links idx s [] = idx.filter (fun e => e.source ≠ s) := by
  intro idx s l1 l2
  refine ⟨update_note_links_update_note_links idx s l1 l2, ?_, ?_⟩
  · intro t ht b hb
    rw [update_note_links_update_note_links] at hb
    unfold update_note_links at hb
    rw [get_backlinks_append, get_backlinks_newEdges_of_not_target s t l2 ht,
      List.append_nil] at hb
    exact get_backlinks_filter_ne_source idx s t b hb
  · unfold update_note_links newEdges
    simp

/-- Claim C5: after one `update_note_links`, a target named by the links has
exactly one backlink entry for that source, whose line numbers are the
strictly ascending (hence deduplicated) union of the matching links' line
numbers, and whose `link_count` is their count; concretely, links to `"t"`
at lines 5 and 10 give the one entry `[5, 10]` with `link_count` 2, and two
links on line 5 give `[5]` once. -/
theorem C5_backlinks_merged_entry :
    (∀ (idx : BacklinksIndex) (s : String) (links : List WikiLink) (t : String),
      ((∃ l ∈ links, l.target_path = t) →
        (get_backlinks (update_note_links idx s links) t).filter
            (fun b => b.source_path = s) =
          [⟨s, mergeLines links t⟩]) ∧
      (mergeLines links t).Pairwise (fun a b => a < b) ∧
      (∀ n, n ∈ mergeLines links t ↔
        ∃ l ∈ links, l.target_path = t ∧ l.line_number = n) ∧
      BacklinkInfo.link_count ⟨s, mergeLines links t⟩ =
        (mergeLines links t).length) ∧
    get_backlinks (update_note_links emptyIndex "source"
        [⟨"t", none, 5⟩, ⟨"t", some "Text", 10⟩]) "t" =
      [⟨"source", [5, 10]⟩] ∧
    BacklinkInfo.link_count ⟨"source", [5, 10]⟩ = 2 ∧
    get_backlinks (update_note_links emptyIndex "source"
        [⟨"target", none, 5⟩, ⟨"target", some "Text", 5⟩]) "target" =
      [⟨"source", [5]⟩] := by
  refine ⟨?_, by decide, by decide, by decide⟩
  intro idx s links t
  refine ⟨?_, pairwise_mergeLines links t, mem_mergeLines links t, rfl⟩
  intro h
  unfold update_note_links
  rw [get_backlinks_append, get_backlinks_newEdges_of_target s t links h,
    List.filter_append]
  rw [List.filter_eq_nil_iff.mpr, List.nil_append]
  · simp [List.filter_cons]
  · intro b hb
    simpa using get_backlinks_filter_ne_source idx s t b hb

/-- Claim C6: `remove_note` on the backlinks index equals
`update_note_links` with no links: afterwards no target has a backlink whose
source is the removed note, and the remaining edges are exactly those of the
other sources. -/
theorem C6_remove_note_eq_update_empty :
    ∀ (idx : BacklinksIndex) (s : String),
      remove_note idx s = update_note_links idx s [] ∧
      (∀ t, ∀ b ∈ get_backlinks (remove_note idx s) t, b.source_path ≠ s) ∧
      (∀ e : Edge, e ∈ remove_note idx s ↔ e ∈ idx ∧ e.source ≠ s) := by
  intro idx s
  refine ⟨?_, ?_, ?_⟩
  · unfold remove_note update_note_links newEdges
    simp
  · intro t b hb
    exact get_backlinks_filter_ne_source idx s t b hb
  · intro e
    unfold remove_note
    simp [List.mem_filter]

/-- Claim C7: `rename_target` relabels every edge targeting the old path to
the new path, preserving source and line numbers; afterwards the old path
has no backlinks; it is a no-op when no edge targets the old path; and
targets other than the two named paths are untouched. -/
theorem C7_rename_target_relabels :
    ∀ (idx : BacklinksIndex) (old new : String),
      (old ≠ new → get_backlinks (rename_target idx old new) old = []) ∧
      (get_backlinks (rename_target idx old new) new =
        (idx.filter (fun e => e.target = old ∨ e.target = new)).map
          (fun e => ⟨e.source, e.lines⟩)) ∧
      ((∀ e ∈ idx, e.target ≠ old) → rename_target idx old new = idx) ∧
      (∀ t, t ≠ old → t ≠ new →
        get_backlinks (rename_target idx old new) t = get_backlinks idx t) := by
  intro idx old new
  exact ⟨rename_target_get_old idx old new,
    rename_target_get_new idx old new,
    rename_target_noop idx old new,
    fun t h1 h2 => rename_target_frame idx old new t h1 h2⟩

/-- Claim C10: `get_backlinks` returns the empty sequence, not an error, for
a freshly constructed index (absent snapshot loads as empty) and for any
target that no stored edge points to. -/
theorem C10_get_backlinks_missing_empty :
    (∀ t, get_backlinks emptyIndex t = []) ∧
    (∀ (idx : BacklinksIndex) (t : String), (∀ e ∈ idx, e.target ≠ t) →
      get_backlinks idx t = []) := by
  constructor
  · intro t
    rfl
  · intro idx t h
    unfold get_backlinks
    rw [List.filter_eq_nil_iff.mpr, List.map_nil]
    intro e he
    simpa using h e he

/-! ## Lemmas about the migration engine -/

theorem migrate_cons_ok (upd : String → String → Except String Unit)
    (ov : String × String) (rest : List (String × String))
    (h : upd ov.1 ov.2 = .ok ()) :
    migrate_v1_to_v2 upd (ov :: rest) =
      (ov :: (migrate_v1_to_v2 upd rest).1, (migrate_v1_to_v2 upd rest).2) := by
  simp [migrate_v1_to_v2, h]

theorem migrate_cons_error (upd : String → String → Except String Unit)
    (ov : String × String) (rest : List (String × String)) (e : String)
    (h : upd ov.1 ov.2 = .error e) :
    migrate_v1_to_v2 upd (ov :: rest) =
      ((migrate_v1_to_v2 upd rest).1,
        ("Error moving " ++ ov.1 ++ ": " ++ e) :: (migrate_v1_to_v2 upd rest).2) := by
  simp [migrate_v1_to_v2, h]

theorem migrate_errors_nil_iff (upd : String → String → Except String Unit)
    (l : List (String × String)) :
    (migrate_v1_to_v2 upd l).2 = [] ↔ ∀ ov ∈ l, upd ov.1 ov.2 = .ok () := by
  induction l with
  | nil => simp [migrate_v1_to_v2]
  | cons ov rest ih =>
    cases h : upd ov.1 ov.2 with
    | ok u =>
      cases u
      rw [migrate_cons_ok upd ov rest h]
      simp only [List.mem_cons]
      constructor
      · intro he x hx
        rcases hx with rfl | hx
        · exact h
        · exact (ih.mp he) x hx
      · intro hall
        exact ih.mpr (fun x hx => hall x (Or.inr hx))
    | error e =>
      rw [migrate_cons_error upd ov rest e h]
      constructor
      · intro he
        exact absurd he (List.cons_ne_nil _ _)
      · intro hall
        have hok := hall ov (List.mem_cons_self ov rest)
        rw [h] at hok
        exact absurd hok (by simp)

theorem migrate_error_mem (upd : String → String → Except String Unit)
    (l : List (String × String)) (ov : String × String) (e : String)
    (hov : ov ∈ l) (h : upd ov.1 ov.2 = .error e) :
    ("Error moving " ++ ov.1 ++ ": " ++ e) ∈ (migrate_v1_to_v2 upd l).2 := by
  induction l with
  | nil => cases hov
  | cons a rest ih =>
    rcases List.mem_cons.mp hov with rfl | hmem
    · rw [migrate_cons_error upd ov rest e h]
      exact List.mem_cons_self _ _
    · cases hu : upd a.1 a.2 with
      | ok u =>
        rw [migrate_cons_ok upd a rest (by cases u; exact hu)]
        exact ih hmem
      | error e2 =>
        rw [migrate_cons_error upd a rest e2 hu]
        exact List.mem_cons_of_mem _ (ih hmem)

theorem run_migrations_ge (c : Config) (notes : List String)
    (upd : String → String → Except String Unit)
    (h : REQUIRED_DATA_VERSION ≤ c.data_version) :
    run_migrations c notes upd = ⟨⟨c.data_version, c.data_version, [], []⟩, c, false⟩ := by
  unfold run_migrations
  rw [if_pos h]

theorem run_migrations_lt (c : Config) (notes : List String)
    (upd : String → String → Except String Unit)
    (h : c.data_version < 2) :
    run_migrations c notes upd =
      if (migrate_v1_to_v2 upd (find_overlapping_notes notes)).2.isEmpty then
        ⟨⟨c.data_version, 2, (migrate_v1_to_v2 upd (find_overlapping_notes notes)).1,
            (migrate_v1_to_v2 upd (find_overlapping_notes notes)).2⟩,
          ⟨2⟩, true⟩
      else
        ⟨⟨c.data_version, 2, (migrate_v1_to_v2 upd (find_overlapping_notes notes)).1,
            (migrate_v1_to_v2 upd (find_overlapping_notes notes)).2⟩,
          c, false⟩ := by
  have hge : ¬(c.data_version ≥ REQUIRED_DATA_VERSION) := by
    simpa [REQUIRED_DATA_VERSION] using Nat.not_le.mpr h
  by_cases hov : (find_overlapping_notes notes).isEmpty
  · have hnil : find_overlapping_notes notes = [] := by
      simpa [List.isEmpty_iff] using hov
    simp [run_migrations, hge, h, hnil, migrate_v1_to_v2, REQUIRED_DATA_VERSION]
  · by_cases he : (migrate_v1_to_v2 upd (find_overlapping_notes notes)).2.isEmpty
    · simp [run_migrations, hge, h, hov, he, REQUIRED_DATA_VERSION]
    · simp [run_migrations, hge, h, hov, he, REQUIRED_DATA_VERSION]

/-! ## The claims about the migration engine -/

/-- Claim C1: starting below the required version, `run_migrations` advances
and persists the config's data version to the target exactly when every
migration item succeeded (vacuously so for zero items); a failing item's
error message is carried in the result, success is false and the config is
neither changed nor saved; starting at or above the target it returns
success immediately without saving. -/
theorem C1_run_migrations_advances_iff_no_errors :
    ∀ (v : Nat) (notes : List String) (upd : String → String → Except String Unit),
      (v < REQUIRED_DATA_VERSION →
        (((run_migrations ⟨v⟩ notes upd).saved = true ∧
            (run_migrations ⟨v⟩ notes upd).config.data_version = REQUIRED_DATA_VERSION) ↔
          ∀ ov ∈ find_overlapping_notes notes, upd ov.1 ov.2 = .ok ())) ∧
      (v < REQUIRED_DATA_VERSION →
        ∀ ov ∈ find_overlapping_notes notes, ∀ e, upd ov.1 ov.2 = .error e →
          ("Error moving " ++ ov.1 ++ ": " ++ e) ∈
              (run_migrations ⟨v⟩ notes upd).result.errors ∧
            (run_migrations ⟨v⟩ notes upd).result.success = false ∧
            (run_migrations ⟨v⟩ notes upd).config = ⟨v⟩ ∧
            (run_migrations ⟨v⟩ notes upd).saved = false) ∧
      (REQUIRED_DATA_VERSION ≤ v →
        run_migrations ⟨v⟩ notes upd = ⟨⟨v, v, [], []⟩, ⟨v⟩, false⟩) := by
  intro v notes upd
  refine ⟨?_, ?_, fun h => run_migrations_ge ⟨v⟩ notes upd h⟩
  · intro h
    rw [run_migrations_lt ⟨v⟩ notes upd (by simpa [REQUIRED_DATA_VERSION] using h)]
    by_cases he : (migrate_v1_to_v2 upd (find_overlapping_notes notes)).2.isEmpty
    · rw [if_pos he]
      have hall : ∀ ov ∈ find_overlapping_notes notes, upd ov.1 ov.2 = .ok () :=
        (migrate_errors_nil_iff upd _).mp (by simpa [List.isEmpty_iff] using he)
      exact ⟨fun _ => hall, fun _ => ⟨rfl, rfl⟩⟩
    · rw [if_neg he]
      have hnall : ¬∀ ov ∈ find_overlapping_notes notes, upd ov.1 ov.2 = .ok () := by
        intro hall
        exact he (by simp [List.isEmpty_iff, (migrate_errors_nil_iff upd _).mpr hall])
      exact ⟨fun hx => absurd hx.1 (by simp), fun hall => absurd hall hnall⟩
  · intro h ov hov e herr
    have hmem := migrate_error_mem upd (find_overlapping_notes notes) ov e hov herr
    have hne : (migrate_v1_to_v2 upd (find_overlapping_notes notes)).2 ≠ [] :=
      fun hnil => by rw [hnil] at hmem; cases hmem
    rw [run_migrations_lt ⟨v⟩ notes upd (by simpa [REQUIRED_DATA_VERSION] using h),
      if_neg (by simpa [List.isEmpty_iff] using hne)]
    refine ⟨hmem, ?_, rfl, rfl⟩
    simp [MigrationResult.success, hne]

/-- Claim C9: when migration starts below the required version and some item
fails, the returned result still reports `to_version` as the attempted
target (2) even though the persisted version stays at `from_version` and the
config is not saved. -/
theorem C9_to_version_on_failure (v : Nat) (notes : List String)
    (upd : String → String → Except String Unit)
    (h : v < REQUIRED_DATA_VERSION)
    (he : (run_migrations ⟨v⟩ notes upd).result.errors ≠ []) :
    (run_migrations ⟨v⟩ notes upd).result.to_version = REQUIRED_DATA_VERSION ∧
    (run_migrations ⟨v⟩ notes upd).result.from_version = v ∧
    (run_migrations ⟨v⟩ notes upd).config.data_version = v ∧
    (run_migrations ⟨v⟩ notes upd).saved = false := by
  rw [run_migrations_lt ⟨v⟩ notes upd (by simpa [REQUIRED_DATA_VERSION] using h)] at he ⊢
  by_cases hm : (migrate_v1_to_v2 upd (find_overlapping_notes notes)).2.isEmpty
  · rw [if_pos hm] at he
    exact absurd (by simpa [List.isEmpty_iff] using hm) he
  · rw [if_neg hm]
    exact ⟨by simp [REQUIRED_DATA_VERSION], rfl, rfl, rfl⟩

/-- Witness for C9 at a concrete failing migration: version 1, one overlap,
a move that always raises. -/
theorem C9_to_version_on_failure_witness :
    (run_migrations ⟨1⟩ ["projects", "projects/foo"]
        (fun _ _ => Except.error "boom")).result.to_version = REQUIRED_DATA_VERSION ∧
    (run_migrations ⟨1⟩ ["projects", "projects/foo"]
        (fun _ _ => Except.error "boom")).result.from_version = 1 ∧
    (run_migrations ⟨1⟩ ["projects", "projects/foo"]
        (fun _ _ => Except.error "boom")).config.data_version = 1 ∧
    (run_migrations ⟨1⟩ ["projects", "projects/foo"]
        (fun _ _ => Except.error "boom")).saved = false :=
  C9_to_version_on_failure 1 ["projects", "projects/foo"]
    (fun _ _ => Except.error "boom") (by decide) (by decide)

/-- Claim C3: `find_overlapping_notes` returns exactly the pairs
`(X, X ++ "/index")` for existing paths `X` having a child path, excluding
those whose index target already exists, sorted ascending by old path and
without duplicates; with the two concrete examples of the spec. -/
theorem C3_find_overlapping_notes_exact :
    (∀ (notes : List String) (pr : String × String),
      pr ∈ find_overlapping_notes notes ↔
        pr.1 ∈ notes ∧ pr.2 = pr.1 ++ "/index" ∧
        (∃ p ∈ notes, startsWith p (pr.1 ++ "/") = true) ∧
        pr.1 ++ "/index" ∉ notes) ∧
    (∀ notes : List String,
      (find_overlapping_notes notes).Sorted (fun a b => a.1 ≤ b.1)) ∧
    (∀ notes : List String, (find_overlapping_notes notes).Nodup) ∧
    find_overlapping_notes ["projects", "projects/foo", "other"] =
      [("projects", "projects/index")] ∧
    find_overlapping_notes ["projects", "projects/index", "projects/foo"] = [] := by
  refine ⟨?_, ?_, ?_, by decide, by decide⟩
  · intro notes pr
    unfold find_overlapping_notes
    rw [(List.perm_insertionSort _ _).mem_iff]
    simp only [List.mem_map, List.mem_filter, List.mem_dedup, Bool.and_eq_true,
      Bool.not_eq_true', decide_eq_false_iff_not, List.any_eq_true]
    constructor
    · rintro ⟨path, ⟨hmem, hchild, hidx⟩, rfl⟩
      exact ⟨hmem, rfl, hchild, hidx⟩
    · rintro ⟨hmem, heq, hchild, hidx⟩
      exact ⟨pr.1, ⟨hmem, hchild, hidx⟩, by rw [← heq]⟩
  · intro notes
    exact List.sorted_insertionSort _ _
  · intro notes
    refine ((List.perm_insertionSort _ _).nodup_iff).mpr ?_
    exact ((List.nodup_dedup notes).filter _).map
      (fun a b hab => congrArg Prod.fst hab)

/-! ## The claims about sanitize and folder listing -/

/-- Claim C2: `sanitize` rejects with `PathInvalid` every path that trims to
nothing, consists only of separators, or whose `..` resolution escapes the
repository root (concretely `"../outside"`, `"foo/../../outside"`, `""`,
`"   "`, `"/"`), while `"/etc/passwd"` is reinterpreted root-relatively as
`"etc/passwd"` and `"  my-note  "` is trimmed to `"my-note"`. -/
theorem C2_sanitize_rejects_and_normalizes :
    (∀ p : String, trimChars p.data = [] → sanitize p = .error pathInvalid) ∧
    (∀ p : String, (trimChars p.data).all (fun c => c = '/') = true →
      sanitize p = .error pathInvalid) ∧
    (∀ p : String,
      resolveStack [] ((stripLeadingSlash (trimChars p.data)).splitOn '/') = none →
      sanitize p = .error pathInvalid) ∧
    sanitize "../outside" = .error pathInvalid ∧
    sanitize "foo/../../outside" = .error pathInvalid ∧
    sanitize "" = .error pathInvalid ∧
    sanitize "   " = .error pathInvalid ∧
    sanitize "/" = .error pathInvalid ∧
    sanitize "/etc/passwd" = .ok "etc/passwd" ∧
    sanitize "  my-note  " = .ok "my-note" := by
  refine ⟨?_, ?_, ?_, by decide, by decide, by decide, by decide, by decide,
    by decide, by decide⟩
  · intro p h
    unfold sanitize
    rw [if_pos h]
  · intro p h
    unfold sanitize
    by_cases ht : trimChars p.data = []
    · rw [if_pos ht]
    · rw [if_neg ht, if_pos h]
  · intro p h
    unfold sanitize
    by_cases ht : trimChars p.data = []
    · rw [if_pos ht]
    · by_cases ha : (trimChars p.data).all (fun c => c = '/') = true
      · rw [if_neg ht, if_pos ha]
      · rw [if_neg ht, if_neg ha, h]

/-- Claim C8: `list_notes_in_folder` with an empty prefix returns exactly
the stored paths without a separator; with a non-empty prefix exactly the
stored paths beginning with the prefix followed by a separator, including
nested descendants at any depth. -/
theorem C8_list_notes_in_folder_filter :
    (∀ (paths : List String) (p : String),
      p ∈ list_notes_in_folder paths "" ↔ p ∈ paths ∧ ¬('/' ∈ p.data)) ∧
    (∀ (paths : List String) (pre : String) (p : String), pre ≠ "" →
      (p ∈ list_notes_in_folder paths pre ↔
        p ∈ paths ∧ startsWith p (pre ++ "/") = true)) ∧
    list_notes_in_folder ["top1", "top2", "folder/nested"] "" = ["top1", "top2"] ∧
    list_notes_in_folder
        ["top", "projects/proj1", "projects/proj2", "other/note", "projects/sub/deep"]
        "projects" =
      ["projects/proj1", "projects/proj2", "projects/sub/deep"] := by
  refine ⟨?_, ?_, by decide, by decide⟩
  · intro paths p
    unfold list_notes_in_folder
    rw [if_pos rfl]
    simp [List.mem_filter]
  · intro paths pre p h
    unfold list_notes_in_folder
    rw [if_neg h]
    simp [List.mem_filter]

end Botnotes
